import Mathlib

/-!
Shallow embedding of the Primoco-to-Actual migrator (`importer.js` and its
newer sibling source file) for checking the natural-language specification.
The embedding follows the newer source file (the one with transfer mirroring,
downgrade-to-expense and kind-specific category identity, which is the
behavior the specification adopts); external collaborators (the crypto hash,
the HTML-entity decoder, the Actual ledger directory and transaction service)
are modelled at their boundary as parameters or call traces.

Machine numbers: JavaScript numbers are IEEE binary64.  The amount pipeline
`Math.round(parseFloat(s.replace(",", ".")) * 100)` is modelled exactly with
integer arithmetic: every finite double is an integer multiple of 2^(-1074),
so doubles are represented as their value scaled by 2^1074 (an `Int`), and
rounding to nearest/ties-to-even is computed on exact rationals given as
numerator/denominator pairs.  `NaN` is modelled as `Option.none`.
-/

namespace Primoco

/-- A parsed CSV row as produced by `csv-parser`: the ordered association of
trimmed column names to raw (undecoded) field texts.  This is the `RawRow`
of the data model. -/
def Row : Type := List (String × String)

/-- JavaScript property access `row[key]`: `undefined` becomes `none`. -/
def getField (r : Row) (k : String) : Option String :=
  List.lookup k r

/-- Decimal value of a list of digit characters (most significant first),
the semantics used for numeric fields of the CSV. -/
def decDigits (l : List Char) : Nat :=
  l.foldl (fun a c => 10 * a + (c.toNat - 48)) 0

/-- Splitting a character list at every dot, modelling how `date-fns`
matches the fixed pattern "dd.MM.yyyy" against the date field. -/
def splitOnDot : List Char → List (List Char)
  | [] => [[]]
  | c :: t =>
    match splitOnDot t with
    | [] => [[c]]
    | h :: r => if c = '.' then [] :: h :: r else (c :: h) :: r

/-- Gregorian leap-year rule used by the JavaScript `Date` calendar. -/
def isLeapYear (y : Nat) : Bool :=
  y % 4 == 0 && (y % 100 != 0 || y % 400 == 0)

/-- Number of days in a month of the proleptic Gregorian calendar. -/
def daysInMonth (y m : Nat) : Nat :=
  if m = 2 then (if isLeapYear y then 29 else 28)
  else if m = 4 ∨ m = 6 ∨ m = 9 ∨ m = 11 then 30
  else 31

/-- Embedding of the source's `parseDate` parse step: `date-fns`
`parse(s, "dd.MM.yyyy", ...)` accepts one or two digits for day and month,
one to four digits for the year, and validates the calendar date (month in
range, day within the month's length, positive year).  `none` models the
`null` returned after `format` throws on an invalid date. -/
def parseDate (s : String) : Option (Nat × Nat × Nat) :=
  match splitOnDot s.data with
  | [dp, mp, yp] =>
    if dp.length = 0 ∨ 2 < dp.length ∨ ¬ dp.all Char.isDigit then none
    else if mp.length = 0 ∨ 2 < mp.length ∨ ¬ mp.all Char.isDigit then none
    else if yp.length = 0 ∨ 4 < yp.length ∨ ¬ yp.all Char.isDigit then none
    else
      let d := decDigits dp
      let m := decDigits mp
      let y := decDigits yp
      if 1 ≤ y ∧ 1 ≤ m ∧ m ≤ 12 ∧ 1 ≤ d ∧ d ≤ daysInMonth y m then
        some (d, m, y)
      else none
  | _ => none

/-- Two-digit zero padding, as in the `date-fns` format token "MM"/"dd". -/
def pad2 (n : Nat) : String :=
  if n < 10 then "0" ++ Nat.repr n else Nat.repr n

/-- Four-digit zero padding, as in the `date-fns` format token "yyyy". -/
def pad4 (n : Nat) : String :=
  if n < 10 then "000" ++ Nat.repr n
  else if n < 100 then "00" ++ Nat.repr n
  else if n < 1000 then "0" ++ Nat.repr n
  else Nat.repr n

/-- Embedding of the source's `format(parsedDate, "yyyy-MM-dd")`: the parsed
calendar date rendered in ISO year-month-day order. -/
def isoFormat (y m d : Nat) : String :=
  pad4 y ++ "-" ++ pad2 m ++ "-" ++ pad2 d

/-- Strict calendar-date comparison `(y₁,m₁,d₁) > (y₂,m₂,d₂)`, modelling the
`isAfter(parsedDate, new Date())` future check at day granularity (the parse
reference date and the comparison moment share their time of day). -/
def dateAfter (a b : Nat × Nat × Nat) : Bool :=
  Nat.blt b.1 a.1 ||
    (Nat.beq a.1 b.1 &&
      (Nat.blt b.2.1 a.2.1 || (Nat.beq a.2.1 b.2.1 && Nat.blt b.2.2 a.2.2)))

/-- JavaScript `String.prototype.trim`, restricted to the whitespace
characters relevant to the CSV fields. -/
def jsTrim (s : String) : String :=
  ⟨((s.data.dropWhile Char.isWhitespace).reverse.dropWhile Char.isWhitespace).reverse⟩

/-- One pass of literal (non-regex) search and replace of every occurrence,
with explicit fuel for termination; fuel is instantiated with the length of
the subject, which bounds the number of scanning steps. -/
def replaceAllFuel (pat rep : List Char) : Nat → List Char → List Char
  | 0, s => s
  | _ + 1, [] => []
  | f + 1, c :: t =>
    if pat ≠ [] ∧ pat.isPrefixOf (c :: t) then
      rep ++ replaceAllFuel pat rep f ((c :: t).drop pat.length)
    else c :: replaceAllFuel pat rep f t

/-- JavaScript `s.replace(new RegExp(pat, "g"), rep)` for a literal pattern:
left-to-right replacement of all non-overlapping occurrences. -/
def jsReplaceAll (s pat rep : String) : String :=
  ⟨replaceAllFuel pat.data rep.data s.data.length s.data⟩

/-- JavaScript `s.replace(pat, rep)` with a string pattern: only the first
occurrence is replaced. -/
def replaceFirstList (pat rep : List Char) : List Char → List Char
  | [] => []
  | c :: t =>
    if pat ≠ [] ∧ pat.isPrefixOf (c :: t) then rep ++ (c :: t).drop pat.length
    else c :: replaceFirstList pat rep t

/-- String wrapper for `replaceFirstList`. -/
def jsReplaceFirst (s pat rep : String) : String :=
  ⟨replaceFirstList pat.data rep.data s.data⟩

/-- JavaScript `toLowerCase` restricted to ASCII letters, which is all the
entry-type field needs. -/
def lowerAscii (s : String) : String :=
  ⟨s.data.map Char.toLower⟩

/-- The fixed table of known Latin-1 double-encoding repairs from
`cleanData` (`encodingFixes` in the source), in source order. -/
def encodingFixes : List (String × String) :=
  [("Ã¤", "ä"), ("Ã¶", "ö"), ("Ã¼", "ü"), ("ÃŸ", "ß"),
   ("Ã„", "Ä"), ("Ã–", "Ö"), ("Ãœ", "Ü"),
   ("Ã©", "é"), ("Ã¨", "è"), ("Ã´", "ô"), ("Ãª", "ê"),
   ("Ã€", "À"), ("Ã¡", "á"), ("Ã¢", "â"), ("Ã£", "ã"),
   ("Ã±", "ñ"), ("Ã§", "ç")]

/-- Sequential application of the encoding-repair table, as the `for` loop
over `Object.entries(encodingFixes)` does. -/
def applyFixes (s : String) : String :=
  encodingFixes.foldl (fun t p => jsReplaceAll t p.1 p.2) s

/-- Run configuration and external pure collaborators of the parse pass:
the `FORCE_DUPLICATES` flag, the import moment (as a calendar date
`(year, month, day)`), the cryptographic hash (hex digest of `sha256`,
modelled as an arbitrary function) and the HTML-entity decoder `he.decode`. -/
structure Config where
  force : Bool
  now : Nat × Nat × Nat
  hash : String → String
  htmlDecode : String → String

/-- Embedding of `cleanData`: empty or missing text maps to the empty
string; otherwise the encoding-repair table is applied, the text is trimmed
and HTML entities are decoded (`he.decode(fixedText.trim())`). -/
def cleanData (cfg : Config) (o : Option String) : String :=
  match o with
  | none => ""
  | some t => if t = "" then "" else cfg.htmlDecode (jsTrim (applyFixes t))

/-- Hexadecimal digit characters as emitted by `JSON.stringify` escapes
(lowercase), shared with `Nat.repr`'s digit characters. -/
def hexDigit (n : Nat) : Char := Nat.digitChar n

/-- Character escaping of `JSON.stringify` for string values: quote,
backslash and the named control escapes become two-character sequences,
remaining control characters become `\u00XX`, and all other characters are
copied verbatim. -/
def escChar (c : Char) : List Char :=
  if c = '"' then ['\\', '"']
  else if c = '\\' then ['\\', '\\']
  else if c = '\x08' then ['\\', 'b']
  else if c = '\x0c' then ['\\', 'f']
  else if c = '\n' then ['\\', 'n']
  else if c = '\r' then ['\\', 'r']
  else if c = '\t' then ['\\', 't']
  else if c.toNat < 32 then
    ['\\', 'u', '0', '0', hexDigit (c.toNat / 16), hexDigit (c.toNat % 16)]
  else [c]

/-- Escaping extended to whole strings. -/
def escList (l : List Char) : List Char := l.flatMap escChar

/-- A JSON string literal: escaped content between double quotes. -/
def quoteJson (s : String) : List Char :=
  '"' :: (escList s.data ++ ['"'])

/-- Comma-separated concatenation, as between the members of a JSON
object literal. -/
def commaJoin : List (List Char) → List Char
  | [] => []
  | [x] => x
  | x :: xs => x ++ ',' :: commaJoin xs

/-- Character data of `JSON.stringify(row)` for a `csv-parser` row object:
all values are strings and member order is the row's field order. -/
def jsonStringifyData (r : Row) : List Char :=
  '\x7b' :: (commaJoin (r.map fun kv => quoteJson kv.1 ++ ':' :: quoteJson kv.2) ++ ['\x7d'])

/-- Embedding of `JSON.stringify(row)`.  This is the hash input of the
fingerprint (`baseImportedId`). -/
def jsonStringify (r : Row) : String :=
  ⟨jsonStringifyData r⟩

/-- Value of a lowercase hexadecimal digit character. -/
def hexVal (c : Char) : Nat :=
  if c.toNat ≤ 57 then c.toNat - 48 else c.toNat - 87

-- Decoder for `escList` (with `unescEsc` and `unescHexQ`), used to prove
-- that escaping is injective: a left inverse undoing every escape sequence
-- `escChar` can emit.
mutual

def unescList : List Char → Option (List Char)
  | [] => some []
  | c :: rest =>
    if c = '\\' then unescEsc rest
    else (unescList rest).map (fun l => c :: l)

def unescEsc : List Char → Option (List Char)
  | [] => none
  | d :: t =>
    if d = '"' then (unescList t).map (fun l => '"' :: l)
    else if d = '\\' then (unescList t).map (fun l => '\\' :: l)
    else if d = 'b' then (unescList t).map (fun l => '\x08' :: l)
    else if d = 'f' then (unescList t).map (fun l => '\x0c' :: l)
    else if d = 'n' then (unescList t).map (fun l => '\n' :: l)
    else if d = 'r' then (unescList t).map (fun l => '\r' :: l)
    else if d = 't' then (unescList t).map (fun l => '\t' :: l)
    else if d = 'u' then unescHexQ t
    else none

def unescHexQ : List Char → Option (List Char)
  | z1 :: z2 :: h1 :: h2 :: t2 =>
    if z1 = '0' ∧ z2 = '0' then
      (unescList t2).map (fun l => Char.ofNat (16 * hexVal h1 + hexVal h2) :: l)
    else none
  | _ => none

end

/-- The row fingerprint: cryptographic hash of the serialized original row,
`crypto.createHash("sha256").update(JSON.stringify(row)).digest("hex")`,
with the hash function a parameter of the model. -/
def fingerprint (hashFn : String → String) (r : Row) : String :=
  hashFn (jsonStringify r)

/-- One step of the identity and dedup engine (the `importedIdMap` block of
`loadCSV`): the first occurrence of a fingerprint is stored under the plain
fingerprint; each later occurrence is appended to the stored entry list and,
in force mode only, receives the suffix `-k` where `k` is the number of
entries already stored. -/
def dedupStep (force : Bool) (idx : List (String × List String)) (fp : String) :
    List (String × List String) × String :=
  match List.lookup fp idx with
  | some entries =>
    let uid := if force then fp ++ "-" ++ Nat.repr entries.length else fp
    (idx.map (fun e => if e.1 = fp then (e.1, e.2 ++ [uid]) else e), uid)
  | none => (idx ++ [(fp, [fp])], fp)

/-- The identity engine run over a list of fingerprints, returning the final
identity index and the import identity assigned to each row in order. -/
def runDedup (force : Bool) (idx : List (String × List String)) :
    List String → List (String × List String) × List String
  | [] => (idx, [])
  | fp :: fps =>
    let p := dedupStep force idx fp
    let q := runDedup force p.1 fps
    (q.1, p.2 :: q.2)

/-- The identity and dedup engine as a standalone component: fingerprint
every row, then assign import identities. -/
def assignIds (force : Bool) (hashFn : String → String) (rows : List Row) :
    List (String × List String) × List String :=
  runDedup force [] (rows.map (fingerprint hashFn))

/-- Take the longest digit prefix and the remainder. -/
def spanDigits (l : List Char) : List Char × List Char :=
  (l.takeWhile Char.isDigit, l.dropWhile Char.isDigit)

/-- Embedding of JavaScript `parseFloat`: skip leading whitespace, read an
optional sign, digits, an optional fraction and an optional exponent, and
ignore any trailing text.  The result is the exact rational value of the
accepted decimal literal as a numerator/denominator pair; `none` models
`NaN` (no digits accepted).  `Infinity` literals do not occur in the data
and are not modelled. -/
def jsParseFloat (s : String) : Option (Int × Nat) :=
  let cs := s.data.dropWhile Char.isWhitespace
  let sp : Int × List Char :=
    match cs with
    | '-' :: t => (-1, t)
    | '+' :: t => (1, t)
    | _ => (1, cs)
  let ipp := spanDigits sp.2
  let fpp :=
    match ipp.2 with
    | '.' :: t => spanDigits t
    | _ => ([], ipp.2)
  if ipp.1.isEmpty && fpp.1.isEmpty then none
  else
    let mant : Nat := decDigits (ipp.1 ++ fpp.1)
    let k : Nat := fpp.1.length
    let ep : Int × List Char :=
      match fpp.2 with
      | 'e' :: '-' :: t => (-1, (spanDigits t).1)
      | 'e' :: '+' :: t => (1, (spanDigits t).1)
      | 'e' :: t => (1, (spanDigits t).1)
      | 'E' :: '-' :: t => (-1, (spanDigits t).1)
      | 'E' :: '+' :: t => (1, (spanDigits t).1)
      | 'E' :: t => (1, (spanDigits t).1)
      | _ => (1, [])
    let e : Int := if ep.2.isEmpty then 0 else ep.1 * (decDigits ep.2 : Int)
    let shift : Int := e - (k : Int)
    if 0 ≤ shift then some (sp.1 * (mant : Int) * ((10 : Int) ^ shift.toNat), 1)
    else some (sp.1 * (mant : Int), (10 : Nat) ^ ((-shift).toNat))

/-- Round the nonnegative rational `a / b` to the nearest integer with ties
to even, the rounding of IEEE binary64 arithmetic. -/
def rne (a b : Nat) : Nat :=
  let q := a / b
  let r := a % b
  if 2 * r < b then q
  else if b < 2 * r then q + 1
  else if q % 2 = 0 then q else q + 1

/-- Floor of the binary logarithm of `num / den` (both positive), computed
by repeatedly doubling the smaller side; the fuel covers the full binary64
exponent range. -/
def findExpAux (fuel : Nat) (num den : Nat) (e : Int) : Int :=
  match fuel with
  | 0 => e
  | f + 1 =>
    if num < den then findExpAux f (2 * num) den (e - 1)
    else if 2 * den ≤ num then findExpAux f num (2 * den) (e + 1)
    else e

/-- Floor of the binary logarithm of `num / den`. -/
def findExp (num den : Nat) : Int := findExpAux 2500 num den 0

/-- The binary64 value nearest to the rational `num / den`, represented as a
mantissa/binary-exponent pair `(m, e)` with value `m * 2 ^ e`.  The scale
exponent is floored at `-1074`, which covers normal and subnormal
granularity uniformly; overflow to infinity is outside the modelled range. -/
def f64ME (num : Int) (den : Nat) : Int × Int :=
  if num = 0 ∨ den = 0 then (0, 0)
  else
    let n := num.natAbs
    let e := findExp n den
    let scale : Int := max (e - 52) (-1074)
    let m :=
      if 0 ≤ scale then rne n (den * 2 ^ scale.toNat)
      else rne (n * 2 ^ ((-scale).toNat)) den
    (if num < 0 then -(m : Int) else (m : Int), scale)

/-- The binary64 value nearest to `num * 2 ^ e`, used for rounding the exact
product of a double with 100. -/
def f64MEScaled (num : Int) (e : Int) : Int × Int :=
  if 0 ≤ e then f64ME (num * 2 ^ e.toNat) 1 else f64ME num (2 ^ ((-e).toNat))

/-- JavaScript `Math.round` on a finite double `m * 2 ^ e`: the nearest
integer, with halves rounded toward positive infinity. -/
def jsMathRound (m e : Int) : Int :=
  if 0 ≤ e then m * 2 ^ e.toNat
  else Int.fdiv (2 * m + 2 ^ ((-e).toNat)) (2 ^ ((-e).toNat + 1))

/-- Embedding of the amount conversion of `loadCSV`:
`Math.round(parseFloat(row["Value"].replace(",", ".") || "0") * 100)`.
The first comma is replaced by a dot, an empty string falls back to "0",
`parseFloat` produces a binary64 value, the multiplication by 100 is a
binary64 multiplication, and `Math.round` rounds half-up.  `none` models a
`NaN` amount. -/
def toCents (s : String) : Option Int :=
  let s1 := jsReplaceFirst s "," "."
  let s2 := if s1 = "" then "0" else s1
  match jsParseFloat s2 with
  | none => none
  | some nd =>
    let d1 := f64ME nd.1 nd.2
    let d2 := f64MEScaled (d1.1 * 100) d1.2
    some (jsMathRound d2.1 d2.2)

/-- A category entity discovered during the parse pass: name plus
income/expense flag (the objects in the `categories` set). -/
structure Category where
  name : String
  is_income : Bool
deriving DecidableEq

/-- A canonical parsed transaction (the objects pushed onto `transactions`
by `loadCSV`).  `amount` is `none` when the JavaScript amount is `NaN`. -/
structure Txn where
  date : String
  amount : Option Int
  category : String
  payee_name : String
  notes : String
  type : String
  acctName : String
  imported_id : String
deriving DecidableEq

/-- State threaded through the parse pass: the transaction list, the
account-name set, the category set, and the identity index. -/
structure LoadState where
  transactions : List Txn
  accounts : List String
  categories : List Category
  importedIdMap : List (String × List String)
deriving DecidableEq

/-- JavaScript `Set.prototype.add` on an insertion-ordered string set. -/
def addUnique (l : List String) (x : String) : List String :=
  if x ∈ l then l else l ++ [x]

/-- The category-set accumulation of `loadCSV`: a nonempty category name is
added under the row's income/expense flag unless an entity with the same
name and the same flag is already present. -/
def addCategory (cats : List Category) (nm : String) (isInc : Bool) : List Category :=
  if nm = "" then cats
  else if cats.any (fun c => c.name == nm && c.is_income == isInc) then cats
  else cats ++ [⟨nm, isInc⟩]

/-- The payee display name of a parsed row.  In the source this is the
expression `counterAccount || (person ? ... : "" + group ? ... : "")`; by
the precedence of the conditional operator it yields the counter account if
nonempty, else a person tag, else a group tag, else the empty string. -/
def payeeDisplay (counterAccount person group : String) : String :=
  if counterAccount ≠ "" then counterAccount
  else if person ≠ "" then "👤 " ++ person ++ " "
  else if group ≠ "" then "👥 " ++ group ++ " "
  else ""

/-- The canonical transaction a dated, validated row pushes in `loadCSV`:
repaired fields, payee display name, and the assigned import identity. -/
def mkRowTxn (cfg : Config) (st : LoadState) (r : Row) (d m y : Nat)
    (entryType : String) (value : Option Int) : Txn :=
  { date := isoFormat y m d, amount := value,
    category := cleanData cfg (getField r "Category"),
    payee_name := payeeDisplay (cleanData cfg (getField r "Counter Account"))
      (cleanData cfg (getField r "Person")) (cleanData cfg (getField r "Group")),
    notes := cleanData cfg (getField r "Note"), type := entryType,
    acctName := cleanData cfg (getField r "Account"),
    imported_id := (dedupStep cfg.force st.importedIdMap (fingerprint cfg.hash r)).2 }

/-- The state update a dated, validated row performs in `loadCSV`: account
and category discovery, identity-index update, and the push of the
canonical transaction. -/
def mkRowState (cfg : Config) (st : LoadState) (r : Row) (d m y : Nat)
    (entryType : String) (value : Option Int) : LoadState :=
  let accountName := cleanData cfg (getField r "Account")
  let counterAccount := cleanData cfg (getField r "Counter Account")
  let accounts1 := if accountName ≠ "" then addUnique st.accounts accountName else st.accounts
  let accounts2 := if counterAccount ≠ "" then addUnique accounts1 counterAccount else accounts1
  { transactions := st.transactions ++ [mkRowTxn cfg st r d m y entryType value],
    accounts := accounts2,
    categories := addCategory st.categories (cleanData cfg (getField r "Category"))
      (entryType == "income"),
    importedIdMap := (dedupStep cfg.force st.importedIdMap (fingerprint cfg.hash r)).1 }

/-- The part of the row handler reached once the date check has passed: the
source dereferences `row["Entry Type"]` and `row["Value"]` unconditionally,
so a missing field raises a `TypeError` that aborts the whole load
(modelled as `Except.error`). -/
def processDatedRow (cfg : Config) (st : LoadState) (r : Row) (d m y : Nat) :
    Except String LoadState :=
  match getField r "Entry Type" with
  | none => .error "TypeError: Entry Type of row is undefined"
  | some et =>
    match getField r "Value" with
    | none => .error "TypeError: Value of row is undefined"
    | some vs => .ok (mkRowState cfg st r d m y (lowerAscii et) (toCents vs))

/-- The per-row handler of `loadCSV` (the `data` listener): rows without a
date field are dropped silently; rows whose date fails to parse or lies
strictly after the import moment are dropped with a warning; all other rows
are processed by `processDatedRow`. -/
def rowStep (cfg : Config) (st : LoadState) (r : Row) : Except String LoadState :=
  match getField r "Date" with
  | none => .ok st
  | some ds =>
    match parseDate ds with
    | none => .ok st
    | some dmy =>
      if dateAfter (dmy.2.2, dmy.2.1, dmy.1) cfg.now then .ok st
      else processDatedRow cfg st r dmy.1 dmy.2.1 dmy.2.2

/-- The whole parse pass over the row list: sequential, aborting on the
first row-handler exception. -/
def loadRows (cfg : Config) (st : LoadState) : List Row → Except String LoadState
  | [] => .ok st
  | r :: rs =>
    match rowStep cfg st r with
    | .error e => .error e
    | .ok st2 => loadRows cfg st2 rs

/-- An existing category of the target ledger as returned by the directory
service `getCategories`. -/
structure ExtCategory where
  id : Nat
  name : String
  is_income : Bool

/-- The string key under which `importCategories` stores a resolved
category id: name dash kind. -/
def catKey (nm : String) (isInc : Bool) : String :=
  nm ++ "-" ++ (if isInc then "income" else "expense")

/-- Resolution of one discovered category against the ledger directory:
reuse the id of an existing category with the same name and the same
income/expense flag, else create one (creation modelled by a fresh-id
counter).  Returns the resolved id and the next counter. -/
def resolveCategoryId (existing : List ExtCategory) (c : Category) (fresh : Nat) :
    Nat × Nat :=
  match existing.find? (fun ec => ec.name == c.name && ec.is_income == c.is_income) with
  | some ec => (ec.id, fresh)
  | none => (fresh, fresh + 1)

/-- Embedding of `importCategories`: every discovered category is resolved
or created under its own income/expense flag and recorded in the category id
map under its composite key. -/
def buildCategoryIdMap (existing : List ExtCategory) :
    List Category → Nat → List (String × Nat)
  | [], _ => []
  | c :: cs, fresh =>
    let p := resolveCategoryId existing c fresh
    (catKey c.name c.is_income, p.1) :: buildCategoryIdMap existing cs p.2

/-- A ledger posting (the objects pushed onto `transactionsByAccount` in
`importTransactions`).  Posting ids model the `uuidv4()` calls as values
drawn from a counter; `payee` is a resolved payee reference, `payee_name` a
free-text payee, `transfer_id` the transfer-counterpart link. -/
structure Posting where
  id : Nat
  date : String
  amount : Option Int
  category : Option Nat
  payee : Option Nat
  payee_name : Option String
  notes : String
  imported_id : String
  cleared : Bool
  transfer_id : Option Nat
deriving DecidableEq

/-- Read-only inputs of the reconciliation loop: the account and category
id maps built by the earlier stages and the payee directory keyed by
transfer account (`payeesByAccount`), plus the `MARK_CLEARED` flag. -/
structure ReconEnv where
  accountIdMap : List (String × Nat)
  categoryIdMap : List (String × Nat)
  payeesByAccount : List (Nat × Nat)
  markCleared : Bool

/-- The category-map key the reconciliation loop looks up for a
transaction: `` `${transaction.category}-${transaction.type}` ``. -/
def reconCategoryKey (t : Txn) : String :=
  t.category ++ "-" ++ t.type

/-- Embedding of one iteration of the reconciliation loop of
`importTransactions` (the newer source file): given the uuid counter `n`,
returns the next counter and the postings pushed, each paired with the
target account id it is pushed to.

Branches, as in the source: an unresolved account name skips the
transaction; a transfer whose counter account is unresolved falls through
and pushes the already-built `transactionData` (whose amount the late
mutation of `transaction.amount` does not change); a transfer whose counter
account has no transfer payee is skipped; a fully resolvable transfer
pushes the rewritten primary posting and a mirrored posting linked to it. -/
def processTxn (env : ReconEnv) (n : Nat) (t : Txn) : Nat × List (Nat × Posting) :=
  let categoryId := List.lookup (reconCategoryKey t) env.categoryIdMap
  match List.lookup t.acctName env.accountIdMap with
  | none => (n + 1, [])
  | some acctId =>
    let td : Posting :=
      { id := n, date := t.date, amount := t.amount, category := categoryId,
        payee := none, payee_name := some t.payee_name, notes := t.notes,
        imported_id := t.imported_id, cleared := env.markCleared, transfer_id := none }
    if t.type = "transfer" then
      match List.lookup t.payee_name env.accountIdMap with
      | none => (n + 1, [(acctId, td)])
      | some counterAcctId =>
        match List.lookup counterAcctId env.payeesByAccount with
        | none => (n + 1, [])
        | some transferPayeeId =>
          let prim : Posting :=
            { td with payee := some transferPayeeId, payee_name := none,
                      category := none, amount := t.amount.map (fun v => -v),
                      transfer_id := some (n + 1) }
          let mir : Posting :=
            { id := n + 1, date := t.date, amount := t.amount, category := none,
              payee := List.lookup acctId env.payeesByAccount, payee_name := none,
              notes := t.notes, imported_id := t.imported_id,
              cleared := env.markCleared, transfer_id := some n }
          (n + 2, [(acctId, prim), (counterAcctId, mir)])
    else (n + 1, [(acctId, td)])

/-- The reconciliation loop over the whole transaction list. -/
def prepareTxns (env : ReconEnv) (n : Nat) : List Txn → Nat × List (Nat × Posting)
  | [] => (n, [])
  | t :: ts =>
    let p := processTxn env n t
    let q := prepareTxns env p.1 ts
    (q.1, p.2 ++ q.2)

/-- JavaScript `Map` key creation: add an empty posting list for a key that
is not yet present (lines `if (!transactionsByAccount.has(...)) set(..., [])`). -/
def ensureKey (m : List (Nat × List Posting)) (k : Nat) : List (Nat × List Posting) :=
  match List.lookup k m with
  | some _ => m
  | none => m ++ [(k, [])]

/-- Push a posting onto the list stored under a key (the key is present). -/
def pushAt : List (Nat × List Posting) → Nat → Posting → List (Nat × List Posting)
  | [], _, _ => []
  | e :: rest, k, p =>
    if e.1 = k then (e.1, e.2 ++ [p]) :: rest else e :: pushAt rest k p

/-- One iteration of the grouping into `transactionsByAccount`: the entry
for the resolved source account is ensured before the transfer handling;
each emitted posting is then pushed to its target account's entry (the
counter-account entry being ensured right before its push). -/
def groupTxn (env : ReconEnv) (m : List (Nat × List Posting)) (n : Nat) (t : Txn) :
    List (Nat × List Posting) × Nat :=
  let p := processTxn env n t
  let m1 :=
    match List.lookup t.acctName env.accountIdMap with
    | none => m
    | some acctId => ensureKey m acctId
  (p.2.foldl (fun acc kp => pushAt (ensureKey acc kp.1) kp.1 kp.2) m1, p.1)

/-- The full `transactionsByAccount` map in insertion order. -/
def buildTransactionsByAccount (env : ReconEnv) (ts : List Txn) :
    List (Nat × List Posting) :=
  (ts.foldl (fun acc t => groupTxn env acc.1 acc.2 t) ([], 0)).1

/-- Chunking with fuel: the batches `slice(i, i + k)` of the delivery loop. -/
def chunksOf (k : Nat) : Nat → List Posting → List (List Posting)
  | 0, _ => []
  | _ + 1, [] => []
  | f + 1, c :: t => ((c :: t).take k) :: chunksOf k f ((c :: t).drop k)

/-- The batches of at most 1000 postings the delivery loop slices an
account's posting list into. -/
def chunk1000 (l : List Posting) : List (List Posting) :=
  chunksOf 1000 l.length l

/-- Observable calls to the external ledger transaction service. -/
inductive ApiCall where
  | importPostings : Nat → List Posting → ApiCall
  | sync : ApiCall
deriving DecidableEq

/-- Trace of service calls made by the delivery loop of the newer source
file: for every nonempty batch it counts the batch and calls `api.sync()`,
and it never calls the transaction-import endpoint. -/
def deliverCalls (m : List (Nat × List Posting)) : List ApiCall :=
  m.flatMap fun e =>
    (chunk1000 e.2).flatMap fun b =>
      if 0 < b.length then [ApiCall.sync] else []

/-- Trace of service calls made by the delivery loop of `importer.js` (the
older variant): every nonempty batch is handed to
`api.importTransactions(acctId, batch)` and then synced. -/
def deliverCallsImporterJs (m : List (Nat × List Posting)) : List ApiCall :=
  m.flatMap fun e =>
    (chunk1000 e.2).flatMap fun b =>
      if 0 < b.length then [ApiCall.importPostings e.1 b, ApiCall.sync] else []

/-! Helper development: decimal rendering of numbers is injective, needed
for the distinctness of force-mode import identities. -/

lemma decDigits_append (l : List Char) (c : Char) :
    decDigits (l ++ [c]) = 10 * decDigits l + (c.toNat - 48) := by
  simp [decDigits, List.foldl_append]

lemma digitChar_val : ∀ k, k < 10 → (Nat.digitChar k).toNat - 48 = k := by decide

lemma toDigitsCore_fuel :
    ∀ (n f g : Nat) (ds : List Char), n < f → n < g →
      Nat.toDigitsCore 10 f n ds = Nat.toDigitsCore 10 g n ds := by
  intro n
  induction n using Nat.strong_induction_on with
  | _ n ih =>
    intro f g ds hf hg
    match f, g with
    | f' + 1, g' + 1 =>
      simp only [Nat.toDigitsCore]
      by_cases h : n / 10 = 0
      · simp [h]
      · have h10 : 10 ≤ n := by
          by_contra hlt
          exact h (Nat.div_eq_of_lt (by omega))
        have hdl : n / 10 < n := Nat.div_lt_self (by omega) (by omega)
        simp only [h, if_false]
        exact ih (n / 10) hdl f' g' _ (by omega) (by omega)

lemma toDigitsCore_acc :
    ∀ (n f : Nat) (ds : List Char), n < f →
      Nat.toDigitsCore 10 f n ds = Nat.toDigitsCore 10 f n [] ++ ds := by
  intro n
  induction n using Nat.strong_induction_on with
  | _ n ih =>
    intro f ds hf
    match f with
    | f' + 1 =>
      simp only [Nat.toDigitsCore]
      by_cases h : n / 10 = 0
      · simp [h]
      · have h10 : 10 ≤ n := by
          by_contra hlt
          exact h (Nat.div_eq_of_lt (by omega))
        have hdl : n / 10 < n := Nat.div_lt_self (by omega) (by omega)
        have hdf : n / 10 < f' := by omega
        simp only [h, if_false]
        rw [ih (n / 10) hdl f' (Nat.digitChar (n % 10) :: ds) hdf,
          ih (n / 10) hdl f' [Nat.digitChar (n % 10)] hdf, List.append_assoc]
        rfl

lemma decDigits_toDigits (n : Nat) : decDigits (Nat.toDigits 10 n) = n := by
  induction n using Nat.strong_induction_on with
  | _ n ih =>
    show decDigits (Nat.toDigitsCore 10 (n + 1) n []) = n
    by_cases h : n / 10 = 0
    · have hn : n < 10 := by
        by_contra hge
        rw [Nat.div_eq_zero_iff (by omega)] at h
        omega
      have hm : n % 10 = n := Nat.mod_eq_of_lt hn
      simp only [Nat.toDigitsCore, h, if_true]
      simpa [decDigits, hm] using digitChar_val n hn
    · have h10 : 10 ≤ n := by
        by_contra hlt
        exact h (Nat.div_eq_of_lt (by omega))
      have hdl : n / 10 < n := Nat.div_lt_self (by omega) (by omega)
      simp only [Nat.toDigitsCore, h, if_false]
      rw [toDigitsCore_acc (n / 10) n [Nat.digitChar (n % 10)] hdl,
        toDigitsCore_fuel (n / 10) n (n / 10 + 1) [] hdl (Nat.lt_succ_self _),
        decDigits_append]
      have := ih (n / 10) hdl
      rw [show Nat.toDigitsCore 10 (n / 10 + 1) (n / 10) [] = Nat.toDigits 10 (n / 10) from rfl,
        this, digitChar_val (n % 10) (Nat.mod_lt n (by omega))]
      omega

theorem natRepr_injective : Function.Injective Nat.repr := by
  intro a b h
  have hd : Nat.toDigits 10 a = Nat.toDigits 10 b := congrArg String.data h
  have h2 := congrArg decDigits hd
  rwa [decDigits_toDigits, decDigits_toDigits] at h2

/-! Helper development: the JSON serialization of a row determines the row,
so the fingerprint input separates rows that differ in any field. -/

lemma hexVal_digitChar : ∀ k, k < 16 → hexVal (Nat.digitChar k) = k := by decide

lemma unesc_cons (c : Char) (hc : ¬ c = '\\') (l : List Char) :
    unescList (c :: l) = (unescList l).map (fun t => c :: t) := by
  rw [unescList, if_neg hc]

lemma unesc_escChar (c : Char) (l : List Char) :
    unescList (escChar c ++ l) = (unescList l).map (fun t => c :: t) := by
  by_cases h1 : c = '"'
  · subst h1; simp [escChar, unescList, unescEsc]
  · by_cases h2 : c = '\\'
    · subst h2; simp [escChar, unescList, unescEsc]
    · by_cases h3 : c = '\x08'
      · subst h3; simp [escChar, unescList, unescEsc]
      · by_cases h4 : c = '\x0c'
        · subst h4; simp [escChar, unescList, unescEsc]
        · by_cases h5 : c = '\n'
          · subst h5; simp [escChar, unescList, unescEsc]
          · by_cases h6 : c = '\r'
            · subst h6; simp [escChar, unescList, unescEsc]
            · by_cases h7 : c = '\t'
              · subst h7; simp [escChar, unescList, unescEsc]
              · by_cases h8 : c.toNat < 32
                · have hdiv : c.toNat / 16 < 16 := by omega
                  have hmod : c.toNat % 16 < 16 := Nat.mod_lt _ (by omega)
                  simp [escChar, h1, h2, h3, h4, h5, h6, h7, h8, hexDigit,
                    unescList, unescEsc, unescHexQ,
                    hexVal_digitChar _ hdiv, hexVal_digitChar _ hmod,
                    Nat.div_add_mod, Char.ofNat_toNat]
                · simp only [escChar, h1, h2, h3, h4, h5, h6, h7, h8, if_false,
                    List.cons_append, List.nil_append]
                  exact unesc_cons c h2 l

lemma unesc_escList (s : List Char) : unescList (escList s) = some s := by
  induction s with
  | nil => rfl
  | cons c t ih =>
    have he : escList (c :: t) = escChar c ++ escList t := by
      simp [escList]
    rw [he, unesc_escChar, ih]
    rfl

lemma escList_injective {s t : List Char} (h : escList s = escList t) : s = t := by
  have h1 := unesc_escList s
  rw [h, unesc_escList t] at h1
  exact (Option.some_injective _ h1).symm

lemma quoteJson_injective {v1 v2 : String} (h : quoteJson v1 = quoteJson v2) : v1 = v2 := by
  simp only [quoteJson, List.cons.injEq, true_and] at h
  have h2 := List.append_cancel_right h
  cases v1; cases v2
  exact congrArg String.mk (escList_injective h2)

lemma commaJoin_cons (x : List Char) (y : List Char) (ys : List (List Char)) :
    commaJoin (x :: y :: ys) = x ++ ',' :: commaJoin (y :: ys) := rfl

lemma commaJoin_mid :
    ∀ (M : List (List Char)) (a b : List Char) (P : List (List Char)),
      commaJoin (M ++ a :: P) = commaJoin (M ++ b :: P) → a = b := by
  intro M
  induction M with
  | nil =>
    intro a b P h
    cases P with
    | nil => simpa [commaJoin] using h
    | cons p ps =>
      rw [List.nil_append, List.nil_append, commaJoin_cons, commaJoin_cons] at h
      exact List.append_cancel_right h
  | cons m M' ih =>
    intro a b P h
    have hsh : ∀ (xs : List (List Char)) (z : List Char) (zs : List (List Char)),
        commaJoin (m :: (xs ++ z :: zs)) = m ++ ',' :: commaJoin (xs ++ z :: zs) := by
      intro xs z zs
      cases xs with
      | nil => exact commaJoin_cons m z zs
      | cons w ws => exact commaJoin_cons m w (ws ++ z :: zs)
    rw [List.cons_append, List.cons_append, hsh M' a P, hsh M' b P] at h
    have h2 := List.append_cancel_left h
    injection h2 with _ h3
    exact ih a b P h3

lemma jsonStringify_field_sensitive
    (pre post : List (String × String)) (k v1 v2 : String)
    (h : jsonStringify (pre ++ (k, v1) :: post) = jsonStringify (pre ++ (k, v2) :: post)) :
    v1 = v2 := by
  have hd : jsonStringifyData (pre ++ (k, v1) :: post)
      = jsonStringifyData (pre ++ (k, v2) :: post) := congrArg String.data h
  simp only [jsonStringifyData, List.cons.injEq, true_and] at hd
  have h2 := List.append_cancel_right hd
  rw [List.map_append, List.map_append, List.map_cons, List.map_cons] at h2
  have h3 := commaJoin_mid _ _ _ _ h2
  have h4 := List.append_cancel_left h3
  injection h4 with _ h5
  exact quoteJson_injective h5

/-! Helper lemmas on strings. -/

lemma string_data_eq {s t : String} (h : s.data = t.data) : s = t := by
  cases s; cases t; exact congrArg String.mk h

lemma string_append_left_cancel {s x y : String} (h : s ++ x = s ++ y) : x = y := by
  have hd := congrArg String.data h
  rw [String.data_append, String.data_append] at hd
  exact string_data_eq (List.append_cancel_left hd)

lemma string_ne_append {s x : String} (hx : x.data ≠ []) : s ≠ s ++ x := by
  intro h
  have hd := congrArg String.data h
  rw [String.data_append] at hd
  have : s.data ++ [] = s.data ++ x.data := by simpa using hd
  exact hx (List.append_cancel_left this).symm

/-! Demo constants used by witness theorems. -/

/-- Demo configuration: force mode off, import moment 2024-06-01, hash and
HTML decoder instantiated with the identity function. -/
def cfgDemo : Config :=
  { force := false, now := (2024, 6, 1), hash := fun s => s, htmlDecode := fun s => s }

/-- Empty parse-pass state. -/
def stEmpty : LoadState :=
  { transactions := [], accounts := [], categories := [], importedIdMap := [] }

/-- Demo environment for a fully resolvable transfer: both account names
resolve and both accounts have transfer payees. -/
def envFull : ReconEnv :=
  { accountIdMap := [("Checking", 1), ("Savings", 2)],
    categoryIdMap := [("Food-expense", 5)],
    payeesByAccount := [(1, 88), (2, 77)], markCleared := false }

/-- Demo transfer transaction from "Checking" to "Savings" over 500 cents. -/
def txnTransfer : Txn :=
  { date := "2020-05-01", amount := some 500, category := "Food",
    payee_name := "Savings", notes := "move", type := "transfer",
    acctName := "Checking", imported_id := "row1" }

/-- Claim C1: for every transfer transaction whose account name and counter
account name both resolve to target account ids and whose counter account
has a transfer-payee reference, reconciliation emits exactly two postings
whose amounts are additive inverses of each other, and each posting's
transfer-counterpart id equals the other posting's id; the primary posting
carries the counter account's transfer-payee reference and null category,
and the mirrored posting carries the source account's transfer-payee
reference and null category. -/
theorem transfer_two_linked_postings
    (env : ReconEnv) (n : Nat) (t : Txn) (a c p : Nat)
    (htype : t.type = "transfer")
    (hacct : List.lookup t.acctName env.accountIdMap = some a)
    (hcounter : List.lookup t.payee_name env.accountIdMap = some c)
    (hpayee : List.lookup c env.payeesByAccount = some p) :
    ∃ prim mir : Posting,
      processTxn env n t = (n + 2, [(a, prim), (c, mir)]) ∧
      prim.amount = t.amount.map (fun v => -v) ∧
      mir.amount = t.amount ∧
      prim.amount = mir.amount.map (fun v => -v) ∧
      mir.amount = prim.amount.map (fun v => -v) ∧
      prim.transfer_id = some mir.id ∧
      mir.transfer_id = some prim.id ∧
      prim.id ≠ mir.id ∧
      prim.payee = some p ∧
      prim.category = none ∧
      prim.payee_name = none ∧
      mir.payee = List.lookup a env.payeesByAccount ∧
      mir.category = none := by
  refine ⟨{ id := n, date := t.date, amount := t.amount.map (fun v => -v), category := none,
            payee := some p, payee_name := none, notes := t.notes,
            imported_id := t.imported_id, cleared := env.markCleared,
            transfer_id := some (n + 1) },
          { id := n + 1, date := t.date, amount := t.amount, category := none,
            payee := List.lookup a env.payeesByAccount, payee_name := none,
            notes := t.notes, imported_id := t.imported_id,
            cleared := env.markCleared, transfer_id := some n },
          ?_, rfl, rfl, rfl, ?_, rfl, rfl, by show n ≠ n + 1; omega, rfl, rfl, rfl, rfl, rfl⟩
  · simp [processTxn, hacct, htype, hcounter, hpayee]
  · cases t.amount <;> simp

/-- Witness for C1 at a concrete fully resolvable transfer. -/
theorem transfer_two_linked_postings_check :
    List.lookup txnTransfer.acctName envFull.accountIdMap = some 1 ∧
    List.lookup txnTransfer.payee_name envFull.accountIdMap = some 2 ∧
    List.lookup 2 envFull.payeesByAccount = some 77 ∧
    (∃ prim mir : Posting,
      processTxn envFull 0 txnTransfer = (0 + 2, [(1, prim), (2, mir)]) ∧
      prim.amount = txnTransfer.amount.map (fun v => -v) ∧
      mir.amount = txnTransfer.amount ∧
      prim.amount = mir.amount.map (fun v => -v) ∧
      mir.amount = prim.amount.map (fun v => -v) ∧
      prim.transfer_id = some mir.id ∧
      mir.transfer_id = some prim.id ∧
      prim.id ≠ mir.id ∧
      prim.payee = some 77 ∧
      prim.category = none ∧
      prim.payee_name = none ∧
      mir.payee = List.lookup 1 envFull.payeesByAccount ∧
      mir.category = none) :=
  ⟨by decide, by decide, by decide,
    transfer_two_linked_postings envFull 0 txnTransfer 1 2 77 rfl (by decide) (by decide) (by decide)⟩

/-- Demo environment in which the transfer's counter account name does not
resolve to any target account. -/
def envNoCounter : ReconEnv :=
  { accountIdMap := [("Checking", 1)], categoryIdMap := [],
    payeesByAccount := [], markCleared := false }

/-- Claim C2 (code bug): a transfer whose counter account is unresolved is
downgraded and emits exactly one posting without a transfer link, and the
run continues; but the posting keeps the un-negated source amount `500`
rather than the negated amount the specification (and the source's own
comment, which negates `transaction.amount` only after `transactionData`
has copied it) prescribes. -/
theorem downgraded_transfer_keeps_source_sign :
    processTxn envNoCounter 0 txnTransfer =
      (1, [(1, { id := 0, date := "2020-05-01", amount := some 500, category := none,
                 payee := none, payee_name := some "Savings", notes := "move",
                 imported_id := "row1", cleared := false, transfer_id := none })]) ∧
    (500 : Int) ≠ -500 := by
  exact ⟨by decide, by decide⟩

/-- Demo environment in which the transfer's counter account resolves but
has no transfer-payee reference in the payee directory. -/
def envNoPayee : ReconEnv :=
  { accountIdMap := [("Checking", 1), ("Savings", 2)], categoryIdMap := [],
    payeesByAccount := [(1, 88)], markCleared := false }

/-- Claim C3: a transfer whose counter account resolves but has no
transfer-payee reference emits zero postings, and the loop continues with
the remaining transactions unchanged (the log message is a console effect
outside the model). -/
theorem transfer_without_payee_emits_nothing
    (env : ReconEnv) (n : Nat) (t : Txn) (a c : Nat)
    (htype : t.type = "transfer")
    (hacct : List.lookup t.acctName env.accountIdMap = some a)
    (hcounter : List.lookup t.payee_name env.accountIdMap = some c)
    (hpayee : List.lookup c env.payeesByAccount = none) :
    processTxn env n t = (n + 1, []) ∧
    ∀ rest, prepareTxns env n (t :: rest) = prepareTxns env (n + 1) rest := by
  have h1 : processTxn env n t = (n + 1, []) := by
    simp [processTxn, hacct, htype, hcounter, hpayee]
  refine ⟨h1, fun rest => ?_⟩
  simp [prepareTxns, h1]

/-- Witness for C3 at a concrete transfer whose counter account has no
transfer payee. -/
theorem transfer_without_payee_emits_nothing_check :
    List.lookup txnTransfer.payee_name envNoPayee.accountIdMap = some 2 ∧
    List.lookup 2 envNoPayee.payeesByAccount = none ∧
    processTxn envNoPayee 0 txnTransfer = (0 + 1, []) ∧
    prepareTxns envNoPayee 0 [txnTransfer] = prepareTxns envNoPayee (0 + 1) [] :=
  ⟨by decide, by decide,
    (transfer_without_payee_emits_nothing envNoPayee 0 txnTransfer 1 2 rfl
      (by decide) (by decide) (by decide)).1,
    (transfer_without_payee_emits_nothing envNoPayee 0 txnTransfer 1 2 rfl
      (by decide) (by decide) (by decide)).2 []⟩

/-! Helper lemmas on chunking. -/

lemma chunksOf_flatten :
    ∀ (f : Nat) (l : List Posting), l.length ≤ f → (chunksOf 1000 f l).flatten = l := by
  intro f
  induction f with
  | zero =>
    intro l hl
    have : l = [] := List.eq_nil_of_length_eq_zero (by omega)
    subst this; rfl
  | succ f ih =>
    intro l hl
    cases l with
    | nil => rfl
    | cons c t =>
      have hd : ((c :: t).drop 1000).length ≤ f := by
        rw [List.length_drop, List.length_cons]
        rw [List.length_cons] at hl
        omega
      simp only [chunksOf, List.flatten_cons, ih _ hd, List.take_append_drop]

lemma chunksOf_le :
    ∀ (f : Nat) (l : List Posting) (b : List Posting),
      b ∈ chunksOf 1000 f l → b.length ≤ 1000 := by
  intro f
  induction f with
  | zero => intro l b hb; simp [chunksOf] at hb
  | succ f ih =>
    intro l b hb
    cases l with
    | nil => simp [chunksOf] at hb
    | cons c t =>
      simp only [chunksOf, List.mem_cons] at hb
      rcases hb with hb | hb
      · subst hb
        simp
      · exact ih _ b hb

/-- A reconciled posting used as the concrete delivery input. -/
def demoPosting : Posting :=
  { id := 0, date := "2020-01-01", amount := some (-500), category := none,
    payee := some 9, payee_name := none, notes := "", imported_id := "r",
    cleared := false, transfer_id := none }

/-- Test for calls to the transaction-import endpoint in a service trace. -/
def isImportCall : ApiCall → Bool
  | .importPostings _ _ => true
  | .sync => false

/-- Claim C4 (code bug): the delivery loop of the newer source file groups
postings by account and slices them into batches of at most 1000 (every
posting lands in exactly one batch), but its body only logs and calls
`api.sync()`: its trace never contains an `importPostings` call, so a
nonempty posting set is never delivered.  The older `importer.js` loop
delivers every batch, which is the behavior the claim describes. -/
theorem batch_loop_never_calls_import :
    (∀ (l : List Posting), (chunk1000 l).flatten = l) ∧
    (∀ (l : List Posting), (chunk1000 l).all (fun b => Nat.ble b.length 1000) = true) ∧
    (∀ (m : List (Nat × List Posting)), (deliverCalls m).filter isImportCall = []) ∧
    deliverCalls [(7, [demoPosting])] = [ApiCall.sync] ∧
    deliverCallsImporterJs [(7, [demoPosting])] =
      [ApiCall.importPostings 7 [demoPosting], ApiCall.sync] := by
  refine ⟨fun l => chunksOf_flatten l.length l (Nat.le_refl _), ?_, ?_, by decide, by decide⟩
  · intro l
    rw [List.all_eq_true]
    intro b hb
    exact Nat.ble_eq.mpr (chunksOf_le l.length l b hb)
  · intro m
    rw [List.filter_eq_nil_iff]
    intro c hc
    simp only [deliverCalls, List.mem_flatMap] at hc
    rcases hc with ⟨e, _, b2, _, hin⟩
    by_cases hb2 : 0 < b2.length
    · rw [if_pos hb2] at hin
      rw [List.mem_singleton.mp hin]
      simp [isImportCall]
    · rw [if_neg hb2] at hin
      cases hin

/-! Helper lemmas for the identity engine. -/

lemma dedupStep_of_mem (force : Bool) (fp : String) (prev : List String) :
    dedupStep force [(fp, prev)] fp =
      ([(fp, prev ++ [if force then fp ++ "-" ++ Nat.repr prev.length else fp])],
       if force then fp ++ "-" ++ Nat.repr prev.length else fp) := by
  simp [dedupStep]

lemma runDedup_replicate (force : Bool) (fp : String) :
    ∀ (k : Nat) (prev : List String),
      runDedup force [(fp, prev)] (List.replicate k fp) =
        ([(fp, prev ++ (List.range k).map (fun i =>
            if force then fp ++ "-" ++ Nat.repr (prev.length + i) else fp))],
         (List.range k).map (fun i =>
            if force then fp ++ "-" ++ Nat.repr (prev.length + i) else fp)) := by
  intro k
  induction k with
  | zero => intro prev; simp [runDedup]
  | succ k ih =>
    intro prev
    rw [List.replicate_succ]
    simp only [runDedup, dedupStep_of_mem]
    rw [ih (prev ++ [if force then fp ++ "-" ++ Nat.repr prev.length else fp])]
    have hlen : (prev ++ [if force then fp ++ "-" ++ Nat.repr prev.length else fp]).length
        = prev.length + 1 := by simp
    rw [hlen, List.range_succ_eq_map, List.map_cons, List.map_map,
      Nat.add_zero, ← List.append_cons]
    have harg : (fun i => if force then fp ++ "-" ++ Nat.repr (prev.length + 1 + i) else fp)
        = ((fun i => if force then fp ++ "-" ++ Nat.repr (prev.length + i) else fp) ∘ Nat.succ) := by
      funext i
      simp only [Function.comp]
      rw [show prev.length + 1 + i = prev.length + Nat.succ i by omega]
    rw [harg]
    simp

/-- Demo row for the identity-engine witness. -/
def rowDemo : Row := [("Date", "01.02.2020"), ("Value", "12,34")]

/-- Claim C5: N byte-identical rows produce one stored identity and, in
default mode, the identical unsuffixed fingerprint for every row; in force
mode they produce the pairwise-distinct identities `fp`, `fp-1`, ...,
`fp-(N-1)` in input order.  The engine is a total function (it never
raises). -/
theorem duplicate_rows_identity_assignment
    (hashFn : String → String) (r : Row) (N : Nat) :
    (assignIds false hashFn (List.replicate N r)).2 =
      List.replicate N (fingerprint hashFn r) ∧
    (N ≠ 0 → (assignIds false hashFn (List.replicate N r)).1 =
      [(fingerprint hashFn r, List.replicate N (fingerprint hashFn r))]) ∧
    (assignIds true hashFn (List.replicate N r)).2 =
      (List.range N).map (fun k => if k = 0 then fingerprint hashFn r
        else fingerprint hashFn r ++ "-" ++ Nat.repr k) ∧
    ((assignIds true hashFn (List.replicate N r)).2).Pairwise (· ≠ ·) := by
  set fp := fingerprint hashFn r with hfp
  have hmap : (List.replicate N r).map (fingerprint hashFn) = List.replicate N fp := by
    simp [List.map_replicate]
  cases N with
  | zero => simp [assignIds, runDedup]
  | succ k =>
    have hrun : ∀ force, runDedup force [] (List.replicate (k + 1) fp) =
        ([(fp, fp :: (List.range k).map (fun i =>
            if force then fp ++ "-" ++ Nat.repr (1 + i) else fp))],
         fp :: (List.range k).map (fun i =>
            if force then fp ++ "-" ++ Nat.repr (1 + i) else fp)) := by
      intro force
      rw [List.replicate_succ]
      simp only [runDedup, dedupStep]
      rw [show List.lookup fp ([] : List (String × List String)) = none from rfl]
      simp only [List.nil_append]
      rw [runDedup_replicate force fp k [fp]]
      simp
    have hdefault : (List.range k).map (fun i =>
        if false = true then fp ++ "-" ++ Nat.repr (1 + i) else fp) = List.replicate k fp := by
      simp
    refine ⟨?_, fun _ => ?_, ?_, ?_⟩
    · simp only [assignIds, hmap, hrun false, hdefault]
      rw [List.replicate_succ]
    · simp only [assignIds, hmap, hrun false, hdefault]
      rw [List.replicate_succ]
    · simp only [assignIds, hmap, hrun true]
      rw [List.range_succ_eq_map, List.map_cons, List.map_map]
      simp only [if_pos rfl, reduceIte]
      congr 1
      exact congrFun (congrArg List.map (funext fun i => by
        simp only [Function.comp, Nat.succ_ne_zero, if_false]
        rw [Nat.add_comm 1 i])) (List.range k)
    · simp only [assignIds, hmap, hrun true]
      constructor
      · intro y hy
        simp only [List.mem_map, List.mem_range] at hy
        rcases hy with ⟨i, _, hi⟩
        simp only [if_pos rfl, reduceIte] at hi
        subst hi
        rw [String.append_assoc]
        exact string_ne_append (by simp [String.data_append])
      · rw [List.pairwise_map]
        apply List.Pairwise.imp ?_ (List.pairwise_lt_range k)
        intro a b hab
        simp only [if_pos rfl, reduceIte]
        intro heq
        have := natRepr_injective (string_append_left_cancel heq)
        omega

/-- Witness for C5 at three identical rows. -/
theorem duplicate_rows_identity_assignment_check :
    (3 ≠ 0) ∧
    (assignIds false (fun s => s) (List.replicate 3 rowDemo)).1 =
      [(fingerprint (fun s => s) rowDemo,
        List.replicate 3 (fingerprint (fun s => s) rowDemo))] :=
  ⟨by decide,
    ((duplicate_rows_identity_assignment (fun s => s) rowDemo 3).2.1) (by decide)⟩

/-! Helper lemmas for category identity. -/

lemma string_append_right_cancel {x y s : String} (h : x ++ s = y ++ s) : x = y := by
  have hd := congrArg String.data h
  rw [String.data_append, String.data_append] at hd
  exact string_data_eq (List.append_cancel_right hd)

lemma take6_append_suffix (p suf : String) (hlen : 6 ≤ suf.data.reverse.length) :
    ((p ++ suf).data.reverse.take 6) = suf.data.reverse.take 6 := by
  rw [String.data_append, List.reverse_append, List.take_append_of_le_length hlen]

lemma catKey_injective (n1 n2 : String) (b1 b2 : Bool) (h : catKey n1 b1 = catKey n2 b2) :
    n1 = n2 ∧ b1 = b2 := by
  have hflag : b1 = b2 := by
    cases b1 <;> cases b2
    · rfl
    · exfalso
      have h6 := congrArg (fun s => s.data.reverse.take 6) h
      simp only [catKey, if_pos, if_neg, Bool.false_eq_true, reduceIte] at h6
      rw [take6_append_suffix _ _ (by decide), take6_append_suffix _ _ (by decide)] at h6
      exact absurd h6 (by decide)
    · exfalso
      have h6 := congrArg (fun s => s.data.reverse.take 6) h
      simp only [catKey, if_pos, if_neg, Bool.false_eq_true, reduceIte] at h6
      rw [take6_append_suffix _ _ (by decide), take6_append_suffix _ _ (by decide)] at h6
      exact absurd h6 (by decide)
    · rfl
  subst hflag
  refine ⟨?_, rfl⟩
  have h2 := string_append_right_cancel h
  exact string_append_right_cancel h2

lemma addCategory_mem (cats : List Category) (nm : String) (isInc : Bool) (hnm : nm ≠ "") :
    (⟨nm, isInc⟩ : Category) ∈ addCategory cats nm isInc := by
  unfold addCategory
  rw [if_neg hnm]
  by_cases hany : cats.any (fun c => c.name == nm && c.is_income == isInc)
  · rw [if_pos hany]
    rcases List.any_eq_true.mp hany with ⟨c, hc, hcp⟩
    simp only [Bool.and_eq_true, beq_iff_eq] at hcp
    have : c = ⟨nm, isInc⟩ := by
      cases c
      simp only [Category.mk.injEq]
      exact hcp
    rwa [this] at hc
  · rw [if_neg hany]
    exact List.mem_append_right _ (List.mem_singleton.mpr rfl)

lemma addCategory_mono {x : Category} (cats : List Category) (nm : String) (isInc : Bool)
    (hx : x ∈ cats) : x ∈ addCategory cats nm isInc := by
  unfold addCategory
  split
  · exact hx
  · split
    · exact hx
    · exact List.mem_append_left _ hx

/-- Claim C6: category identity is the pair of name and income/expense flag:
the same name under the two entry kinds yields two distinct category
entities in the discovered set, each is resolved or created in the id map
under its own flag and composite key (the keys never collide), and the
reconciliation loop's category lookup key is exactly that composite key for
income and expense transactions. -/
theorem category_identity_name_and_kind (nm : String) (hnm : nm ≠ "") :
    (addCategory (addCategory [] nm false) nm true = [⟨nm, false⟩, ⟨nm, true⟩]) ∧
    (∀ cats : List Category,
      (⟨nm, false⟩ : Category) ∈ addCategory (addCategory cats nm false) nm true ∧
      (⟨nm, true⟩ : Category) ∈ addCategory (addCategory cats nm false) nm true) ∧
    (Category.mk nm false ≠ Category.mk nm true) ∧
    (∀ n1 n2 b1 b2, catKey n1 b1 = catKey n2 b2 → n1 = n2 ∧ b1 = b2) ∧
    (∀ (existing : List ExtCategory) (fresh : Nat),
      List.lookup (catKey nm false)
          (buildCategoryIdMap existing [⟨nm, false⟩, ⟨nm, true⟩] fresh) =
        some (resolveCategoryId existing ⟨nm, false⟩ fresh).1 ∧
      List.lookup (catKey nm true)
          (buildCategoryIdMap existing [⟨nm, false⟩, ⟨nm, true⟩] fresh) =
        some (resolveCategoryId existing ⟨nm, true⟩
          (resolveCategoryId existing ⟨nm, false⟩ fresh).2).1) ∧
    (∀ t : Txn, t.category = nm →
      (t.type = "expense" → reconCategoryKey t = catKey nm false) ∧
      (t.type = "income" → reconCategoryKey t = catKey nm true)) := by
  have hkeyne : catKey nm true ≠ catKey nm false := by
    intro hcontra
    exact absurd (catKey_injective nm nm true false hcontra).2 (by decide)
  refine ⟨?_, ?_, by simp, catKey_injective, ?_, ?_⟩
  · simp [addCategory, hnm]
  · intro cats
    exact ⟨addCategory_mono _ nm true (addCategory_mem cats nm false hnm),
      addCategory_mem (addCategory cats nm false) nm true hnm⟩
  · intro existing fresh
    constructor
    · simp [buildCategoryIdMap, List.lookup]
    · simp only [buildCategoryIdMap, List.lookup]
      rw [show (catKey nm true == catKey nm false) = false from
        beq_eq_false_iff_ne.mpr hkeyne]
      simp
  · intro t ht
    refine ⟨fun hty => ?_, fun hty => ?_⟩
    · simp [reconCategoryKey, catKey, ht, hty]
    · simp [reconCategoryKey, catKey, ht, hty]

/-- Witness for C6 at the category name "Gifts". -/
theorem category_identity_name_and_kind_check :
    ("Gifts" ≠ "") ∧
    addCategory (addCategory [] "Gifts" false) "Gifts" true =
      [⟨"Gifts", false⟩, ⟨"Gifts", true⟩] :=
  ⟨by decide, (category_identity_name_and_kind "Gifts" (by decide)).1⟩

/-! Development for the amount-rounding claim: the two documented candidate
rounding rules of the specification (half away from zero, or banker's
rounding), stated over the exact scaled decimal value. -/

/-- Rounding to the nearest integer with halves away from zero. -/
def roundHalfAwayFromZero (q : ℚ) : Int :=
  if q < 0 then -(Int.floor (-q + 1/2)) else Int.floor (q + 1/2)

/-- Rounding to the nearest integer with halves to the even neighbor
(banker's rounding). -/
def roundHalfToEven (q : ℚ) : Int :=
  let n := Int.floor q
  if q - n < 1/2 then n
  else if 1/2 < q - n then n + 1
  else if n % 2 = 0 then n else n + 1

lemma roundHalfAwayFromZero_at_1005 : roundHalfAwayFromZero ((201 : ℚ) / 2) = 101 := by
  unfold roundHalfAwayFromZero
  rw [if_neg (by norm_num)]
  rw [show (201 : ℚ) / 2 + 1 / 2 = ((101 : Int) : ℚ) by norm_num, Int.floor_intCast]

lemma roundHalfToEven_at_2005 : roundHalfToEven ((401 : ℚ) / 2) = 200 := by
  have hf : Int.floor ((401 : ℚ) / 2) = 200 := by
    rw [Int.floor_eq_iff]
    norm_num
  simp only [roundHalfToEven, hf]
  rw [if_neg (by norm_num), if_neg (by norm_num), if_pos (by decide)]

/-- Claim C7 counterexample: the conversion is not "scale by 100 and round
to the nearest integer under one consistent documented rounding rule".  The
specification's candidate rules are half-away-from-zero and banker's
rounding; the exact scaled values of "1,005" and "2,005" are the halves
201/2 and 401/2, yet the code yields 100 for the first (ruling out
half-away-from-zero, which gives 101) and 201 for the second (ruling out
banker's rounding, which gives 200). -/
theorem no_single_documented_rounding_rule :
    ¬ ∃ r : ℚ → Int,
        ((∀ q, r q = roundHalfAwayFromZero q) ∨ (∀ q, r q = roundHalfToEven q)) ∧
        toCents "1,005" = some (r ((201 : ℚ) / 2)) ∧
        toCents "2,005" = some (r ((401 : ℚ) / 2)) := by
  rintro ⟨r, hrule | hrule, h1, h2⟩
  · rw [hrule, roundHalfAwayFromZero_at_1005] at h1
    rw [show toCents "1,005" = some 100 from by decide] at h1
    exact absurd (Option.some.inj h1) (by decide)
  · rw [hrule, roundHalfToEven_at_2005] at h2
    rw [show toCents "2,005" = some 201 from by decide] at h2
    exact absurd (Option.some.inj h2) (by decide)

/-- Claim C7 as amended: the conversion parses the comma-decimal text to a
binary64 value, multiplies by 100 in binary64 and applies `Math.round`
(half toward positive infinity on the floating-point product); it yields
1234 for "12,34" and -1 for "-0,01", and on decimal ties the direction
follows the floating-point representation: "1,005" gives 100 while "2,005"
gives 201 and "0,005" gives 1. -/
theorem amount_conversion_values :
    toCents "12,34" = some 1234 ∧ toCents "-0,01" = some (-1) ∧
    toCents "1,005" = some 100 ∧ toCents "2,005" = some 201 ∧
    toCents "0,005" = some 1 :=
  ⟨by decide, by decide, by decide, by decide, by decide⟩

/-- Claim C8: a row whose date parses under the day.month.year convention
(one- to four-digit year, per the `dd.MM.yyyy` pattern) and is not strictly
after the import moment yields a transaction whose output date is the same
calendar date reordered into ISO year-month-day form; a row whose date
fails to parse, or parses to a future date, is dropped without error and
without touching the state (the warning is a console effect outside the
model). -/
theorem date_reordered_or_dropped :
    (∀ (cfg : Config) (st : LoadState) (r : Row) (ds : String) (d m y : Nat) (et vs : String),
      getField r "Date" = some ds →
      parseDate ds = some (d, m, y) →
      dateAfter (y, m, d) cfg.now = false →
      getField r "Entry Type" = some et →
      getField r "Value" = some vs →
      rowStep cfg st r = .ok (mkRowState cfg st r d m y (lowerAscii et) (toCents vs)) ∧
      (mkRowState cfg st r d m y (lowerAscii et) (toCents vs)).transactions =
        st.transactions ++ [mkRowTxn cfg st r d m y (lowerAscii et) (toCents vs)] ∧
      (mkRowTxn cfg st r d m y (lowerAscii et) (toCents vs)).date = isoFormat y m d) ∧
    (∀ (cfg : Config) (st : LoadState) (r : Row) (ds : String),
      getField r "Date" = some ds → parseDate ds = none →
      rowStep cfg st r = .ok st) ∧
    (∀ (cfg : Config) (st : LoadState) (r : Row) (ds : String) (d m y : Nat),
      getField r "Date" = some ds → parseDate ds = some (d, m, y) →
      dateAfter (y, m, d) cfg.now = true →
      rowStep cfg st r = .ok st) := by
  refine ⟨?_, ?_, ?_⟩
  · intro cfg st r ds d m y et vs hdate hparse hfut het hvs
    refine ⟨?_, rfl, rfl⟩
    simp only [rowStep, hdate, hparse, hfut, Bool.false_eq_true, if_false,
      processDatedRow, het, hvs]
  · intro cfg st r ds hdate hparse
    simp only [rowStep, hdate, hparse]
  · intro cfg st r ds d m y hdate hparse hfut
    simp only [rowStep, hdate, hparse, hfut, if_true]

/-- Witness for C8 at a concrete row dated 02.03.2021 against the import
moment 2024-06-01. -/
theorem date_reordered_or_dropped_check :
    getField [("Date", "02.03.2021"), ("Entry Type", "Expense"), ("Value", "12,34")]
      "Date" = some "02.03.2021" ∧
    parseDate "02.03.2021" = some (2, 3, 2021) ∧
    (mkRowTxn cfgDemo stEmpty
      [("Date", "02.03.2021"), ("Entry Type", "Expense"), ("Value", "12,34")]
      2 3 2021 (lowerAscii "Expense") (toCents "12,34")).date = isoFormat 2021 3 2 :=
  ⟨by decide, by decide,
    (date_reordered_or_dropped.1 cfgDemo stEmpty
      [("Date", "02.03.2021"), ("Entry Type", "Expense"), ("Value", "12,34")]
      "02.03.2021" 2 3 2021 "Expense" "12,34"
      (by decide) (by decide) (by decide) (by decide) (by decide)).2.2⟩

/-- Claim C9: the fingerprint is a deterministic function of the serialized
original row, and, provided the cryptographic hash is collision-free on the
two serializations involved, rows that differ in a single field (even by
pre-trim whitespace) receive different fingerprints. -/
theorem fingerprint_deterministic_and_field_sensitive :
    (∀ (hashFn : String → String) (r1 r2 : Row), r1 = r2 →
      fingerprint hashFn r1 = fingerprint hashFn r2) ∧
    (∀ (hashFn : String → String) (pre post : List (String × String)) (k v1 v2 : String),
      (fingerprint hashFn (pre ++ (k, v1) :: post) = fingerprint hashFn (pre ++ (k, v2) :: post) →
        jsonStringify (pre ++ (k, v1) :: post) = jsonStringify (pre ++ (k, v2) :: post)) →
      v1 ≠ v2 →
      fingerprint hashFn (pre ++ (k, v1) :: post) ≠ fingerprint hashFn (pre ++ (k, v2) :: post)) := by
  refine ⟨fun hashFn r1 r2 h => congrArg (fingerprint hashFn) h, ?_⟩
  intro hashFn pre post k v1 v2 hcoll hne h
  exact hne (jsonStringify_field_sensitive pre post k v1 v2 (hcoll h))

/-- Witness for C9: with the identity function as hash, two one-field rows
whose values differ only by a trailing space get different fingerprints. -/
theorem fingerprint_deterministic_and_field_sensitive_check :
    ("a" ≠ "a ") ∧
    fingerprint (fun s => s) ([] ++ ("Note", "a") :: []) ≠
      fingerprint (fun s => s) ([] ++ ("Note", "a ") :: []) :=
  ⟨by decide,
    fingerprint_deterministic_and_field_sensitive.2 (fun s => s) [] [] "Note" "a" "a "
      (fun h => h) (by decide)⟩

/-- Claim C10: once a row passes the date check, the loader dereferences
the "Entry Type" and "Value" fields unconditionally, so a dated, date-valid
row lacking either field aborts the entire load with an error instead of
being skipped; and the parse pass is error-free whenever every such row
carries both fields. -/
theorem dated_row_missing_field_aborts_load :
    (∀ (cfg : Config) (st : LoadState) (r : Row) (rest : List Row) (ds : String) (d m y : Nat),
      getField r "Date" = some ds →
      parseDate ds = some (d, m, y) →
      dateAfter (y, m, d) cfg.now = false →
      (getField r "Entry Type" = none ∨ getField r "Value" = none) →
      ∃ msg, loadRows cfg st (r :: rest) = .error msg) ∧
    (∀ (cfg : Config) (st : LoadState) (rows : List Row),
      (∀ r ∈ rows, ∀ (ds : String) (d m y : Nat),
        getField r "Date" = some ds → parseDate ds = some (d, m, y) →
        dateAfter (y, m, d) cfg.now = false →
        (∃ a, getField r "Entry Type" = some a) ∧ (∃ b, getField r "Value" = some b)) →
      ∃ st2, loadRows cfg st rows = .ok st2) := by
  constructor
  · intro cfg st r rest ds d m y hdate hparse hfut hmiss
    have hstep : ∃ msg, rowStep cfg st r = .error msg := by
      simp only [rowStep, hdate, hparse, hfut, Bool.false_eq_true, if_false]
      cases het : getField r "Entry Type" with
      | none =>
        exact ⟨"TypeError: Entry Type of row is undefined",
          by simp only [processDatedRow, het]⟩
      | some et =>
        rcases hmiss with hm | hm
        · rw [het] at hm; cases hm
        · exact ⟨"TypeError: Value of row is undefined",
            by simp only [processDatedRow, het, hm]⟩
    rcases hstep with ⟨msg, hmsg⟩
    exact ⟨msg, by simp only [loadRows, hmsg]⟩
  · intro cfg st rows
    induction rows generalizing st with
    | nil => intro _; exact ⟨st, rfl⟩
    | cons r rs ih =>
      intro hprop
      have hr := hprop r (List.mem_cons_self r rs)
      have hrest : ∀ x ∈ rs, ∀ (ds : String) (d m y : Nat),
          getField x "Date" = some ds → parseDate ds = some (d, m, y) →
          dateAfter (y, m, d) cfg.now = false →
          (∃ a, getField x "Entry Type" = some a) ∧ (∃ b, getField x "Value" = some b) :=
        fun x hx => hprop x (List.mem_cons_of_mem r hx)
      cases hdate : getField r "Date" with
      | none =>
        rcases ih st hrest with ⟨st2, h2⟩
        exact ⟨st2, by simp only [loadRows, rowStep, hdate, h2]⟩
      | some ds =>
        cases hparse : parseDate ds with
        | none =>
          rcases ih st hrest with ⟨st2, h2⟩
          exact ⟨st2, by simp only [loadRows, rowStep, hdate, hparse, h2]⟩
        | some dmy =>
          obtain ⟨d, m, y⟩ := dmy
          cases hfut : dateAfter (y, m, d) cfg.now with
          | true =>
            rcases ih st hrest with ⟨st2, h2⟩
            refine ⟨st2, ?_⟩
            simp only [loadRows, rowStep, hdate, hparse, hfut, if_true]
            exact h2
          | false =>
            rcases hr ds d m y hdate hparse hfut with ⟨⟨et, het⟩, ⟨vs, hvs⟩⟩
            rcases ih (mkRowState cfg st r d m y (lowerAscii et) (toCents vs)) hrest
              with ⟨st2, h2⟩
            refine ⟨st2, ?_⟩
            simp only [loadRows, rowStep, hdate, hparse, hfut, Bool.false_eq_true, if_false,
              processDatedRow, het, hvs]
            exact h2

/-- Witness for C10: a dated, date-valid row lacking "Entry Type" makes the
load of the whole file fail. -/
theorem dated_row_missing_field_aborts_load_check :
    (getField [("Date", "01.02.2020")] "Entry Type" = none ∨
      getField [("Date", "01.02.2020")] "Value" = none) ∧
    ∃ msg, loadRows cfgDemo stEmpty
      [[("Date", "01.02.2020")], [("Date", "02.02.2020"), ("Entry Type", "Expense"),
        ("Value", "1,00")]] = .error msg :=
  ⟨Or.inl (by decide),
    dated_row_missing_field_aborts_load.1 cfgDemo stEmpty [("Date", "01.02.2020")]
      [[("Date", "02.02.2020"), ("Entry Type", "Expense"), ("Value", "1,00")]]
      "01.02.2020" 1 2 2020 (by decide) (by decide) (by decide) (Or.inl (by decide))⟩

end Primoco
